import Mathlib

/-!
Verification of the PyIDE repository (ide.py, proyectos.py) against its
natural-language specification.  Each Python function that a claim talks
about is embedded as an executable Lean definition; theorems below settle
the claims in CLAIMS.json.
-/

namespace IDE

/-! ## Basic characters -/

/-- Single-quote character, code point 39. -/
def squoteChar : Char := Char.ofNat 39

/-- Double-quote character, code point 34. -/
def dquoteChar : Char := Char.ofNat 34

/-- Space character. -/
def spaceChar : Char := ' '

/-- Hash character starting a Python comment. -/
def hashChar : Char := '#'

/-- Newline character separating lines of a document. -/
def newlineChar : Char := Char.ofNat 10

/-- Quote characters recognised by the string pattern of ide.py line 253,
the character class at the start of the regex. -/
def isQuote (c : Char) : Bool := c = squoteChar || c = dquoteChar

/-- Word characters for the regex word boundary anchor in the keyword
patterns of ide.py line 247 and proyectos.py line 48 (PCRE2 default,
ASCII letters, digits and underscore). -/
def isWordChar (c : Char) : Bool := c.isAlpha || c.isDigit || c = '_'

/-- Index of the first character satisfying a predicate, the position at
which a single-character regex first matches in a line. -/
def firstIdx (p : Char → Bool) : List Char → Option Nat
  | [] => none
  | c :: rest => if p c then some 0 else (firstIdx p rest).map (· + 1)

/-! ## Token classifier of ide.py (PythonHighlighter.highlightBlock) -/

/-- Spans matched by the non-greedy quoted-string regex of ide.py line 253
on one line, as produced by globalMatch: scanning left to right, a quote
character opens a span that ends at the next occurrence of the same quote
character; an unclosed quote matches nothing and scanning resumes one
character later; after a match, scanning resumes after its closing quote.
Recursion is on a fuel bounded by the line length (each step consumes at
least one character). -/
def stringSpansAux : Nat → List Char → Nat → List (Nat × Nat)
  | 0, _, _ => []
  | _, [], _ => []
  | fuel + 1, c :: rest, pos =>
    if isQuote c then
      match firstIdx (fun d => d = c) rest with
      | some j => (pos, j + 2) :: stringSpansAux fuel (rest.drop (j + 1)) (pos + j + 2)
      | none => stringSpansAux fuel rest (pos + 1)
    else stringSpansAux fuel rest (pos + 1)

/-- String spans of a line, ide.py lines 256-262. -/
def stringSpans (line : List Char) : List (Nat × Nat) := stringSpansAux line.length line 0

/-- Comment spans of a line: the regex of ide.py line 250 matches from the
first hash character to the end of the line, so globalMatch yields exactly
one span when a hash is present and none otherwise. -/
def commentSpans (line : List Char) : List (Nat × Nat) :=
  match firstIdx (fun d => d = hashChar) line with
  | some i => [(i, line.length - i)]
  | none => []

/-- Word-boundary condition on the left of offset `s`. -/
def boundaryBefore (line : List Char) (s : Nat) : Bool :=
  match s with
  | 0 => true
  | s' + 1 =>
    match line.get? s' with
    | some c => !isWordChar c
    | none => true

/-- Word-boundary condition on the right of offset `e`. -/
def boundaryAfter (line : List Char) (e : Nat) : Bool :=
  match line.get? e with
  | some c => !isWordChar c
  | none => true

/-- Start offsets of the whole-word matches of keyword `w` in `line`,
the matches of the regex built in ide.py line 247 and proyectos.py
line 48 (a word bounded on both sides by a non-word character or a line
edge). -/
def keywordMatches (w line : List Char) : List Nat :=
  (List.range line.length).filter fun s =>
    decide ((line.drop s).take w.length = w) && boundaryBefore line s &&
      boundaryAfter line (s + w.length)

/-- Categories of classified spans. -/
inductive Cat where
  | str
  | comment
  | keyword
deriving DecidableEq, Repr

/-- A classified region of one line. -/
structure Span where
  start : Nat
  length : Nat
  cat : Cat
deriving DecidableEq, Repr

/-- Containment test used by ide.py line 275:
`start <= s < start + length`. -/
def spanContains (s : Nat) (sp : Nat × Nat) : Bool := sp.1 ≤ s && s < sp.1 + sp.2

/-- Spans emitted by ide.py PythonHighlighter.highlightBlock (lines
255-276): all string spans, then all comment spans, then for each keyword
every whole-word match whose start offset is not contained in any
previously recorded string or comment span. -/
def highlightBlock (kws : List String) (line : List Char) : List Span :=
  let strs := stringSpans line
  let cmts := commentSpans line
  (strs.map fun p => Span.mk p.1 p.2 Cat.str) ++
  (cmts.map fun p => Span.mk p.1 p.2 Cat.comment) ++
  ((kws.map String.data).flatMap fun w =>
    (keywordMatches w line).filterMap fun s =>
      if (strs ++ cmts).any (spanContains s) then none
      else some (Span.mk s w.length Cat.keyword))

/-- Built-in default keyword list of ide.py lines 55-61; proyectos.py
lines 41-46 hard-code the same list. -/
def defaultKeywords : List String :=
  ["import", "from", "class", "def", "if", "elif", "else",
   "for", "while", "return", "in", "and", "or", "not",
   "with", "as", "try", "except", "finally", "pass",
   "break", "continue", "yield", "assert", "async", "await",
   "global", "nonlocal", "del", "raise", "is", "lambda"]

/-! ## Rendering of proyectos.py (PythonHighlighter.highlightBlock)

proyectos.py lines 55-60 apply every rule's format with setFormat in rule
order (all keyword rules first, the comment rule last); on overlap the
last write wins.  The final per-offset format is modelled as a function
updated by each rule application. -/

/-- Overwrite offsets `[s, s + l)` with category `c` (Qt setFormat,
last write wins). -/
def setSpanFmt (f : Nat → Option Cat) (s l : Nat) (c : Cat) : Nat → Option Cat :=
  fun i => if s ≤ i ∧ i < s + l then some c else f i

/-- Apply one keyword rule of proyectos.py: paint every whole-word match. -/
def applyKeywordRule (line w : List Char) (f : Nat → Option Cat) : Nat → Option Cat :=
  (keywordMatches w line).foldl (fun acc s => setSpanFmt acc s w.length Cat.keyword) f

/-- Final per-offset format after proyectos.py highlightBlock: all keyword
rules in order, then the comment rule (`#` to end of line) last. -/
def renderBlock (line : List Char) : Nat → Option Cat :=
  let afterKw := (defaultKeywords.map String.data).foldl
    (fun acc w => applyKeywordRule line w acc) (fun _ => none)
  match firstIdx (fun d => d = hashChar) line with
  | some i => setSpanFmt afterKw i (line.length - i) Cat.comment
  | none => afterKw

/-! ## Keyword configuration loading (ide.py lines 48-61) -/

/-- Outcome of reading the keyword configuration file
`palabras_reservadas.json`: the file may be absent, present but failing
to parse as JSON (json.load raises), or successfully parsed to a list. -/
inductive KwSource where
  | missing
  | malformed
  | parsed (ws : List String)

/-- Keyword list produced by the module-level loading code of ide.py
lines 48-61: a missing file falls back to the built-in default list;
a present but malformed file is caught by the `except` clause and yields
the empty list; a parsed file yields its contents.  No branch surfaces an
error. -/
def loadKeywords : KwSource → List String
  | KwSource.missing => defaultKeywords
  | KwSource.malformed => []
  | KwSource.parsed ws => ws

/-! ## XOR cipher (ide.py lines 140-142, proyectos.py lines 27-29) -/

/-- Built-in key of ide.py line 140 and proyectos.py line 27. -/
def ENCRYPTION_KEY : Nat := 67

/-- Embeds `xor_cipher`: each character's code point is XORed with the
key and converted back with Python's `chr`, which accepts exactly the
code points `0..0x10FFFF` and raises ValueError beyond; text is a list of
code points (Python strings admit lone surrogates, which Lean `Char`
excludes), and a raised ValueError is `none`. -/
def xor_cipher : List Nat → Nat → Option (List Nat)
  | [], _ => some []
  | c :: cs, key =>
    if Nat.xor c key ≤ 1114111 then
      match xor_cipher cs key with
      | some rest => some (Nat.xor c key :: rest)
      | none => none
    else none

/-! ## Editor line operations (ide.py CodeEditor.keyPressEvent) -/

/-- Count of leading space characters of a line,
`len(text) - len(text.lstrip(' '))` (ide.py lines 213 and 227). -/
def leadingSpaces : List Char → Nat
  | [] => 0
  | c :: rest => if c = spaceChar then leadingSpaces rest + 1 else 0

/-- Tab branch of keyPressEvent (ide.py lines 219-221) applied at the
start of a line: insert exactly four spaces. -/
def indentLine (line : List Char) : List Char :=
  List.replicate 4 spaceChar ++ line

/-- Backtab branch of keyPressEvent (ide.py lines 223-235): when at least
four leading spaces exist the first four characters of the line are
removed, otherwise nothing happens. -/
def outdentLine (line : List Char) : List Char :=
  if 4 ≤ leadingSpaces line then line.drop 4 else line

/-- Characters for which Python's str.isspace() is true, the set an
argumentless str.rstrip() strips: the ASCII whitespace `\t \n \v \f \r`
and space, the separator controls `\x1c`-`\x1f`, next line `\x85`,
no-break space `\xa0`, ogham space U+1680, the Unicode space separators
U+2000-U+200A, the line and paragraph separators U+2028 and U+2029, and
the spaces U+202F, U+205F and U+3000. -/
def isPyWhitespace (c : Char) : Bool :=
  (9 ≤ c.toNat && c.toNat ≤ 13) || c.toNat = 32 ||
    (28 ≤ c.toNat && c.toNat ≤ 31) || c.toNat = 133 || c.toNat = 160 ||
    c.toNat = 0x1680 || (0x2000 ≤ c.toNat && c.toNat ≤ 0x200A) ||
    c.toNat = 0x2028 || c.toNat = 0x2029 || c.toNat = 0x202F ||
    c.toNat = 0x205F || c.toNat = 0x3000

/-- Python `text.rstrip()`: drop trailing whitespace. -/
def pyRstrip (line : List Char) : List Char :=
  (line.reverse.dropWhile isPyWhitespace).reverse

/-- Python `text.endswith(':')` on a list of characters. -/
def endsWithColon (l : List Char) : Bool := l.getLast? = some ':'

/-- Result of pressing Enter in a line: the text kept on the current
line, the text of the new line, and the cursor column in the new line. -/
structure EnterResult where
  before : List Char
  after : List Char
  cursorCol : Nat
deriving DecidableEq, Repr

/-- Enter branch of keyPressEvent (ide.py lines 209-217): the leading
space count of the whole current line is computed, four extra spaces are
added when the right-stripped line ends with a colon, the line is split at
the cursor column, and the indentation is inserted at the start of the
new line with the cursor left after it. -/
def insertNewlineWithAutoIndent (line : List Char) (col : Nat) : EnterResult :=
  let base := leadingSpaces line
  let extra := if endsWithColon (pyRstrip line) then 4 else 0
  EnterResult.mk (line.take col)
    (List.replicate (base + extra) spaceChar ++ line.drop col)
    (base + extra)

/-! ## Go-to-line (ide.py MainWindow.go_to_line, lines 828-838) -/

/-- Document text of a buffer: its lines joined by newlines
(QPlainTextEdit block structure). -/
def joinLines : List (List Char) → List Char
  | [] => []
  | [l] => l
  | l :: l2 :: ls => l ++ newlineChar :: joinLines (l2 :: ls)

/-- Document offset of the start of line `i` (0-based): every earlier
line contributes its length plus one newline, which is
QTextBlock.position of block `i`. -/
def lineStart (buffer : List (List Char)) (i : Nat) : Nat :=
  ((buffer.take i).map (fun l => l.length + 1)).sum

/-- Embeds go_to_line: the input dialog of ide.py line 833 only accepts a
line number in `[1, blockCount]`, so a request outside that range never
yields a value (`none`, the OutOfRange outcome); an accepted `n` places
the cursor at the start of block `n - 1` (lines 835-837). -/
def go_to_line (buffer : List (List Char)) (n : Int) : Option Nat :=
  if 1 ≤ n ∧ n ≤ (buffer.length : Int) then
    some (lineStart buffer (n.toNat - 1))
  else none

/-! ## Run bridge completion (ide.py lines 916-929) -/

/-- Final synthetic message of process_finished: the success text for
exit code 0, otherwise the failure text carrying the exit code. -/
def finalMessage (ec : Int) : List Char :=
  if ec = 0 then ">>> Ejecución completada correctamente, sin errores.".data
  else ">>> Ejecución finalizada con errores (exit code ".data ++ (toString ec).data
    ++ ").".data

/-- Embeds process_finished (ide.py lines 921-929): first handle_stdout
(lines 916-919) appends any remaining captured output to the log when it
is non-empty, then exactly one final message chosen by the exit code is
appended. -/
def process_finished (log : List (List Char)) (pending : List Char) (ec : Int) :
    List (List Char) :=
  (if pending = [] then log else log ++ [pending]) ++ [finalMessage ec]

/-! ## Project-root guard of _load_path (ide.py lines 745-775,
proyectos.py lines 280-297) -/

/-- os.path.commonpath on two absolute, normalised paths given as
component lists: the longest common component prefix. -/
def commonPath : List String → List String → List String
  | a :: as, b :: bs => if a = b then a :: commonPath as bs else []
  | _, _ => []

/-- Embeds _load_path at the level of the tab set: the path is rejected
(warning shown, no tab) when the common path of the file and the project
root is not the project root; otherwise a tab is added when the file can
be read (`readOk`), and the tab set is unchanged when reading fails. -/
def load_path (root : List String) (tabs : List (List String))
    (path : List String) (readOk : Bool) : List (List String) :=
  if commonPath path root ≠ root then tabs
  else if readOk then tabs ++ [path] else tabs

/-! ## New-file name selection (ide.py lines 843-856, proyectos.py
lines 319-334) -/

/-- Candidate file names tried by new_file: `nuevo.py`, then `nuevo1.py`,
`nuevo2.py`, ... (the loop counter starts at 1). -/
def candName : Nat → String
  | 0 => "nuevo.py"
  | Nat.succ k => "nuevo" ++ toString (k + 1) ++ ".py"

/-- Embeds the while loop of new_file over the set `fs` of file names
existing in the project root: starting from candidate index `k`, return
the first candidate name not in `fs`.  The Python loop is unbounded; the
fuel returns `none` when it is exhausted (with fuel above the number of
existing files the loop always terminates). -/
def new_file_candidate (fs : List String) : Nat → Nat → Option String
  | 0, _ => none
  | fuel + 1, k =>
    if candName k ∈ fs then new_file_candidate fs fuel (k + 1)
    else some (candName k)

/-! ## Supporting lemmas -/

theorem firstIdx_le {p : Char → Bool} {l : List Char} {j : Nat} {c : Char}
    (hg : l.get? j = some c) (hp : p c = true) :
    ∃ i, firstIdx p l = some i ∧ i ≤ j := by
  induction l generalizing j with
  | nil => simp at hg
  | cons d rest ih =>
    by_cases hd : p d
    · exact ⟨0, by simp [firstIdx, hd], Nat.zero_le j⟩
    · cases j with
      | zero =>
        simp at hg
        subst hg
        simp [hd] at hp
      | succ j' =>
        simp only [List.get?_cons_succ] at hg
        obtain ⟨i, hi, hij⟩ := ih hg
        exact ⟨i + 1, by simp [firstIdx, hd, hi], by omega⟩

theorem firstIdx_lt {p : Char → Bool} {l : List Char} {i : Nat}
    (h : firstIdx p l = some i) : i < l.length := by
  induction l generalizing i with
  | nil => simp [firstIdx] at h
  | cons d rest ih =>
    by_cases hd : p d
    · simp [firstIdx, hd] at h
      simp [← h]
    · simp only [firstIdx, hd, Bool.false_eq_true, if_false] at h
      cases hrest : firstIdx p rest with
      | none => rw [hrest] at h; simp at h
      | some i' =>
        rw [hrest] at h
        simp at h
        have := ih hrest
        simp [List.length_cons]
        omega

theorem keywordMatches_bounds {w line : List Char} {s : Nat}
    (h : s ∈ keywordMatches w line) :
    s < line.length ∧ s + w.length ≤ line.length := by
  unfold keywordMatches at h
  rw [List.mem_filter] at h
  obtain ⟨hr, hp⟩ := h
  rw [List.mem_range] at hr
  refine ⟨hr, ?_⟩
  simp only [Bool.and_eq_true, decide_eq_true_eq] at hp
  have htake := congrArg List.length hp.1.1
  simp only [List.length_take, List.length_drop] at htake
  omega

/-! ## Claim theorems -/

/-- C1: for every input line and every keyword match whose start offset
lies at or after a comment marker `#` on that line, the classifier emits
no keyword Span for that match (ide.py highlightBlock discards a keyword
match whose start offset falls in the recorded comment span, which runs
from the first `#` to the end of the line); and in proyectos.py, whose
highlightBlock paints the comment rule last, every offset of such a match
ends up rendered in the comment category. -/
theorem keyword_masked_after_hash (kws : List String) (line : List Char)
    (w : String) (s j : Nat) (_hw : w ∈ kws)
    (hm : s ∈ keywordMatches w.data line)
    (hj : j ≤ s) (hhash : line.get? j = some hashChar) :
    Span.mk s w.data.length Cat.keyword ∉ highlightBlock kws line ∧
    ((List.range w.data.length).all fun o =>
      decide (renderBlock line (s + o) = some Cat.comment)) = true := by
  obtain ⟨hslt, hsw⟩ := keywordMatches_bounds hm
  obtain ⟨i0, hi0, hi0j⟩ :=
    firstIdx_le (p := fun d => d = hashChar) hhash (by simp)
  have hi0lt : i0 < line.length := firstIdx_lt hi0
  constructor
  · intro hmem
    simp only [highlightBlock, List.mem_append] at hmem
    rcases hmem with (hstr | hcmt) | hkw
    · obtain ⟨p, _, hp⟩ := List.mem_map.mp hstr
      exact absurd (congrArg Span.cat hp) (by simp)
    · obtain ⟨p, _, hp⟩ := List.mem_map.mp hcmt
      exact absurd (congrArg Span.cat hp) (by simp)
    · obtain ⟨w', hw', hsp⟩ := List.mem_flatMap.mp hkw
      obtain ⟨t, ht, hts⟩ := List.mem_filterMap.mp hsp
      by_cases hany : (stringSpans line ++ commentSpans line).any (spanContains t) = true
      · rw [if_pos hany] at hts
        exact Option.noConfusion hts
      · rw [if_neg hany] at hts
        have hts' := Option.some.inj hts
        have hteq : t = s := congrArg Span.start hts'
        subst hteq
        apply hany
        rw [List.any_eq_true]
        refine ⟨(i0, line.length - i0), ?_, ?_⟩
        · rw [List.mem_append]
          right
          simp [commentSpans, hi0]
        · simp only [spanContains, Bool.and_eq_true, decide_eq_true_eq]
          omega
  · rw [List.all_eq_true]
    intro o ho
    rw [List.mem_range] at ho
    rw [decide_eq_true_eq]
    simp only [renderBlock, hi0, setSpanFmt]
    rw [if_pos (by omega)]

/-- C2: for every input line and every keyword match whose start offset
falls inside a string span computed for that line (a properly quoted
string, closed on the same line, as matched by the non-greedy quote
regex), ide.py highlightBlock emits no keyword Span for that match. -/
theorem keyword_masked_inside_string (kws : List String) (line : List Char)
    (w : String) (s a l : Nat) (_hw : w ∈ kws)
    (hm : s ∈ keywordMatches w.data line)
    (hspan : (a, l) ∈ stringSpans line) (ha : a ≤ s) (hs : s < a + l) :
    Span.mk s w.data.length Cat.keyword ∉ highlightBlock kws line := by
  intro hmem
  simp only [highlightBlock, List.mem_append] at hmem
  rcases hmem with (hstr | hcmt) | hkw
  · obtain ⟨p, _, hp⟩ := List.mem_map.mp hstr
    exact absurd (congrArg Span.cat hp) (by simp)
  · obtain ⟨p, _, hp⟩ := List.mem_map.mp hcmt
    exact absurd (congrArg Span.cat hp) (by simp)
  · obtain ⟨w', hw', hsp⟩ := List.mem_flatMap.mp hkw
    obtain ⟨t, ht, hts⟩ := List.mem_filterMap.mp hsp
    by_cases hany : (stringSpans line ++ commentSpans line).any (spanContains t) = true
    · rw [if_pos hany] at hts
      exact Option.noConfusion hts
    · rw [if_neg hany] at hts
      have hts' := Option.some.inj hts
      have hteq : t = s := congrArg Span.start hts'
      subst hteq
      apply hany
      rw [List.any_eq_true]
      refine ⟨(a, l), ?_, ?_⟩
      · rw [List.mem_append]
        left
        exact hspan
      · simp only [spanContains, Bool.and_eq_true, decide_eq_true_eq]
        omega

/-- Witness for C1: on the line `# def x` with keyword set `def`, the
match of `def` at offset 2 sits after the hash at offset 0, so no keyword
Span for it is emitted and proyectos.py renders its region as comment. -/
theorem keyword_masked_after_hash_witness :
    Span.mk 2 "def".data.length Cat.keyword ∉ highlightBlock ["def"] "# def x".data ∧
    ((List.range "def".data.length).all fun o =>
      decide (renderBlock "# def x".data (2 + o) = some Cat.comment)) = true :=
  keyword_masked_after_hash ["def"] "# def x".data "def" 2 0 (by decide) (by decide)
    (by decide) (by decide)

/-- Witness for C2: on the line `x = 'def'` with keyword set `def`, the
match of `def` at offset 5 sits inside the string span (4, 5), so no
keyword Span for it is emitted. -/
theorem keyword_masked_inside_string_witness :
    Span.mk 5 "def".data.length Cat.keyword ∉
      highlightBlock ["def"] ("x = ".data ++ squoteChar :: ("def".data ++ [squoteChar])) :=
  keyword_masked_inside_string ["def"]
    ("x = ".data ++ squoteChar :: ("def".data ++ [squoteChar]))
    "def" 5 4 5 (by decide) (by decide) (by decide) (by decide) (by decide)

/-- C4 counterexample: a malformed keyword file does not yield the
built-in default list — the `except` branch of ide.py line 53 substitutes
the empty list instead, refuting the claim that every recovery produces
the default list. -/
theorem loadKeywords_malformed_not_default :
    loadKeywords KwSource.malformed ≠ defaultKeywords := by
  decide

/-- C4 amended: keyword loading recovers silently in both failure cases,
but with different substitutes — a missing file yields the built-in
default list while a malformed file yields the empty list. -/
theorem loadKeywords_fallback :
    loadKeywords KwSource.missing = defaultKeywords ∧
    loadKeywords KwSource.malformed = [] :=
  ⟨rfl, rfl⟩

/-- C5 counterexample: with text `"a"` (code point 97) and the integer
key 2^21 the first application of xor_cipher already raises (97 XOR 2^21
exceeds 0x10FFFF, so Python's chr raises ValueError), hence applying the
transform twice does not return the text; the involution does not hold
for every integer key. -/
theorem xor_roundtrip_fails_large_key :
    ((xor_cipher [97] (2 ^ 21)).bind fun t => xor_cipher t (2 ^ 21)) ≠ some [97] := by
  decide

/-- C5 amended: for every text of valid code points and every key for
which the first application of xor_cipher is defined (each XORed code
point stays within chr's range), applying xor_cipher again with the same
key returns the original text — in particular the round trip holds
whenever the first application does not raise, e.g. always for the
built-in key 67. -/
theorem xor_cipher_involution (text : List Nat) (key : Nat) (out : List Nat)
    (htext : ∀ c ∈ text, c ≤ 1114111) (h : xor_cipher text key = some out) :
    xor_cipher out key = some text := by
  induction text generalizing out with
  | nil =>
    simp only [xor_cipher] at h
    have h' := Option.some.inj h
    subst h'
    rfl
  | cons c cs ih =>
    simp only [xor_cipher] at h
    by_cases hle : Nat.xor c key ≤ 1114111
    · rw [if_pos hle] at h
      cases hrec : xor_cipher cs key with
      | none => rw [hrec] at h; exact Option.noConfusion h
      | some rest =>
        rw [hrec] at h
        have h' := Option.some.inj h
        subst h'
        have hx : Nat.xor (Nat.xor c key) key = c := Nat.xor_cancel_right key c
        have hc : c ≤ 1114111 := htext c (List.mem_cons_self c cs)
        simp only [xor_cipher, hx, if_pos hc]
        rw [ih rest (fun d hd => htext d (List.mem_cons_of_mem c hd)) hrec]
    · rw [if_neg hle] at h
      exact Option.noConfusion h

/-- Witness for the amended C5: decrypting the encryption of `"hi"`
(code points 104, 105) with the built-in key 67 returns the text. -/
theorem xor_cipher_involution_witness :
    xor_cipher [43, 42] 67 = some [104, 105] :=
  xor_cipher_involution [104, 105] 67 [43, 42] (by decide) (by decide)

/-- Leading spaces of four prepended spaces. -/
theorem leadingSpaces_indentLine (line : List Char) :
    leadingSpaces (indentLine line) = leadingSpaces line + 4 := by
  simp [indentLine, List.replicate, leadingSpaces, spaceChar]

/-- C6: indentSelection followed by outdentSelection on a line restores
the original line content (the spec's precondition on the leading-space
count is stated as given), and outdentSelection alone is a no-op on a
line with fewer than four leading spaces (ide.py lines 218-235). -/
theorem indent_outdent_roundtrip (line : List Char)
    (_hpre : leadingSpaces line ≤ leadingSpaces (indentLine line) - 4) :
    outdentLine (indentLine line) = line ∧
    (leadingSpaces line < 4 → outdentLine line = line) := by
  constructor
  · have h4 : 4 ≤ leadingSpaces (indentLine line) := by
      rw [leadingSpaces_indentLine]; omega
    rw [outdentLine, if_pos h4, indentLine,
      List.drop_left' (List.length_replicate _ _)]
  · intro hlt
    rw [outdentLine, if_neg (by omega)]

/-- Witness for C6 on the line `x`. -/
theorem indent_outdent_roundtrip_witness :
    outdentLine (indentLine "x".data) = "x".data ∧
    (leadingSpaces "x".data < 4 → outdentLine "x".data = "x".data) :=
  indent_outdent_roundtrip "x".data (by decide)

/-- C7: pressing Enter computes the current line's leading-space count,
adds four extra spaces exactly when the right-stripped line ends with a
colon, starts the new line with that many spaces (its first `cursorCol`
characters are spaces and the rest is the text split off at the cursor
column), and leaves the cursor at the end of the inserted indentation
(ide.py lines 207-217). -/
theorem enter_autoindent (line : List Char) (col : Nat) :
    (insertNewlineWithAutoIndent line col).cursorCol
      = leadingSpaces line + (if endsWithColon (pyRstrip line) then 4 else 0) ∧
    (insertNewlineWithAutoIndent line col).after.take
        (insertNewlineWithAutoIndent line col).cursorCol
      = List.replicate (insertNewlineWithAutoIndent line col).cursorCol spaceChar ∧
    (insertNewlineWithAutoIndent line col).before
      ++ (insertNewlineWithAutoIndent line col).after.drop
          (insertNewlineWithAutoIndent line col).cursorCol
      = line := by
  refine ⟨rfl, ?_, ?_⟩
  · simp only [insertNewlineWithAutoIndent]
    rw [List.take_left' (List.length_replicate _ _)]
  · simp only [insertNewlineWithAutoIndent]
    rw [List.drop_left' (List.length_replicate _ _), List.take_append_drop]

/-- Dropping the document prefix up to the start of line `i` leaves
exactly the document formed by the lines from `i` on. -/
theorem drop_lineStart (buffer : List (List Char)) (i : Nat) :
    (joinLines buffer).drop (lineStart buffer i) = joinLines (buffer.drop i) := by
  induction buffer generalizing i with
  | nil => simp [joinLines, lineStart]
  | cons l ls ih =>
    cases i with
    | zero => simp [lineStart]
    | succ i' =>
      have hstart : lineStart (l :: ls) (i' + 1) = l.length + 1 + lineStart ls i' := by
        simp only [lineStart, List.take_succ_cons, List.map_cons, List.sum_cons]
      rw [hstart]
      cases ls with
      | nil =>
        have hdrop : l.drop (l.length + 1 + lineStart [] i') = [] :=
          List.drop_eq_nil_of_le (by omega)
        simp [joinLines, hdrop, List.drop]
      | cons l2 ls2 =>
        have harr : l.length + 1 + lineStart (l2 :: ls2) i'
            = l.length + (lineStart (l2 :: ls2) i' + 1) := by omega
        rw [List.drop_succ_cons, joinLines, harr, List.drop_append, List.drop_succ_cons]
        exact ih i'

/-- C3: a go-to-line request with a line number outside `[1, lineCount]`
is rejected (the dialog of ide.py line 833 only accepts values in that
range, so out-of-range requests never produce a cursor), shown here for
the two boundary requests 0 and lineCount + 1; a request inside the range
yields a cursor whose document position is the start of the requested
line: the document from the cursor on is exactly the requested line
followed by the remaining lines. -/
theorem go_to_line_spec (buffer : List (List Char)) (n : Int) :
    go_to_line buffer 0 = none ∧
    go_to_line buffer ((buffer.length : Int) + 1) = none ∧
    (1 ≤ n → n ≤ (buffer.length : Int) →
      ∃ p, go_to_line buffer n = some p ∧
        (joinLines buffer).drop p = joinLines (buffer.drop (n.toNat - 1))) := by
  refine ⟨?_, ?_, ?_⟩
  · rw [go_to_line, if_neg (by omega)]
  · rw [go_to_line, if_neg (by omega)]
  · intro h1 h2
    rw [go_to_line, if_pos ⟨h1, h2⟩]
    exact ⟨lineStart buffer (n.toNat - 1), rfl, drop_lineStart buffer (n.toNat - 1)⟩

/-- Witness for C3 on a two-line buffer: requests 0 and 3 are rejected,
request 2 places the cursor at the start of line 2. -/
theorem go_to_line_witness :
    go_to_line ["ab".data, "cd".data] 0 = none ∧
    (∃ p, go_to_line ["ab".data, "cd".data] 2 = some p ∧
      (joinLines ["ab".data, "cd".data]).drop p
        = joinLines (["ab".data, "cd".data].drop 1)) :=
  ⟨(go_to_line_spec ["ab".data, "cd".data] 2).1,
   (go_to_line_spec ["ab".data, "cd".data] 2).2.2 (by decide) (by decide)⟩

/-- C8: on process exit, process_finished first appends any remaining
captured output and then exactly one final synthetic message, which is
the last entry of the log (no output event follows it), and whose content
distinguishes success from failure: for a non-zero exit code the final
message differs from the exit-code-0 message. -/
theorem process_finished_spec (log : List (List Char)) (pending : List Char)
    (ec : Int) :
    (process_finished log pending ec).getLast? = some (finalMessage ec) ∧
    (process_finished log pending ec).dropLast
      = (if pending = [] then log else log ++ [pending]) ∧
    (ec ≠ 0 → finalMessage ec ≠ finalMessage 0) := by
  refine ⟨?_, ?_, ?_⟩
  · rw [process_finished, List.getLast?_concat]
  · rw [process_finished, List.dropLast_concat]
  · intro hne heq
    rw [finalMessage, if_neg hne, finalMessage, if_pos rfl] at heq
    rw [List.append_assoc] at heq
    have h14 := congrArg (fun l => l[14]?) heq
    simp only at h14
    rw [List.getElem?_append_left (by decide)] at h14
    revert h14
    decide

/-- Witness for C8: a run with pending output `hola` and exit code 2
ends its log with the failure message, which differs from the success
message. -/
theorem process_finished_witness :
    (process_finished [] "hola".data 2).getLast? = some (finalMessage 2) ∧
    finalMessage 2 ≠ finalMessage 0 :=
  ⟨(process_finished_spec [] "hola".data 2).1,
   (process_finished_spec [] "hola".data 2).2.2 (by decide)⟩

/-- C9: _load_path adds no tab for a path whose common path with the
project root is not the project root (the tab set is unchanged), and
consequently every tab in the resulting tab set either was already open
or is a path lying inside the project root. -/
theorem load_path_guard (root : List String) (tabs : List (List String))
    (path : List String) (readOk : Bool) :
    (commonPath path root ≠ root → load_path root tabs path readOk = tabs) ∧
    (∀ t ∈ load_path root tabs path readOk, t ∈ tabs ∨ commonPath t root = root) := by
  constructor
  · intro h
    rw [load_path, if_pos h]
  · intro t ht
    rw [load_path] at ht
    by_cases hc : commonPath path root = root
    · rw [if_neg (by simpa using hc)] at ht
      by_cases hr : readOk = true
      · rw [if_pos hr, List.mem_append] at ht
        rcases ht with h | h
        · exact Or.inl h
        · rw [List.mem_singleton] at h
          subst h
          exact Or.inr hc
      · rw [if_neg hr] at ht
        exact Or.inl ht
    · rw [if_pos hc] at ht
      exact Or.inl ht

/-- Witness for C9: opening `/etc/x` against project root `/home/p` with
one tab already open leaves the tab set unchanged. -/
theorem load_path_guard_witness :
    load_path ["home", "p"] [["home", "p", "a.py"]] ["etc", "x"] true
      = [["home", "p", "a.py"]] :=
  (load_path_guard ["home", "p"] [["home", "p", "a.py"]] ["etc", "x"] true).1
    (by decide)

/-- The while loop of new_file, started at candidate index `k`, returns a
name not among the existing files, and that name is the first candidate
from index `k` on that is free (every earlier candidate from `k` exists). -/
theorem new_file_candidate_aux (fs : List String) (fuel : Nat) :
    ∀ k r, new_file_candidate fs fuel k = some r →
      r ∉ fs ∧ ∃ m, k ≤ m ∧ r = candName m ∧
        ∀ j, k ≤ j → j < m → candName j ∈ fs := by
  induction fuel with
  | zero => intro k r h; exact Option.noConfusion h
  | succ fuel ih =>
    intro k r h
    rw [new_file_candidate] at h
    by_cases hex : candName k ∈ fs
    · rw [if_pos hex] at h
      obtain ⟨hfree, m, hkm, hr, hall⟩ := ih (k + 1) r h
      refine ⟨hfree, m, by omega, hr, ?_⟩
      intro j hkj hjm
      by_cases hj : j = k
      · subst hj; exact hex
      · exact hall j (by omega) hjm
    · rw [if_neg hex] at h
      have hr := Option.some.inj h
      subst hr
      exact ⟨hex, k, Nat.le_refl k, rfl, fun j hkj hjk => absurd hkj (by omega)⟩

/-- C10: whenever the new_file search loop (started, as in the code, at
`nuevo.py`) returns a candidate name, that name does not exist in the
project root — so the file then created never overwrites an existing one
— and it is the first name of the sequence `nuevo.py`, `nuevo1.py`,
`nuevo2.py`, ... that does not already exist. -/
theorem new_file_no_overwrite (fs : List String) (fuel : Nat) (r : String)
    (h : new_file_candidate fs fuel 0 = some r) :
    r ∉ fs ∧ ∃ m, r = candName m ∧ ∀ j, j < m → candName j ∈ fs := by
  obtain ⟨hfree, m, _, hr, hall⟩ := new_file_candidate_aux fs fuel 0 r h
  exact ⟨hfree, m, hr, fun j hj => hall j (Nat.zero_le j) hj⟩

/-- Witness for C10: with `nuevo.py` and `nuevo1.py` present, the loop
returns `nuevo2.py`, which is fresh and is the first free candidate. -/
theorem new_file_no_overwrite_witness :
    "nuevo2.py" ∉ ["nuevo.py", "nuevo1.py"] ∧
    ∃ m, "nuevo2.py" = candName m ∧
      ∀ j, j < m → candName j ∈ ["nuevo.py", "nuevo1.py"] :=
  new_file_no_overwrite ["nuevo.py", "nuevo1.py"] 3 "nuevo2.py" (by decide)

end IDE
